import Mathlib

/-!
Verification of the intent-resolution and execution-orchestration core of the
intex framework. The TypeScript sources are shallowly embedded: asynchronous
code becomes sequential state passing, a thrown exception becomes the error
case of `Except`, and external collaborators (the completion provider, the
storage backend, the JSON parser and the regular-expression engine of the
JavaScript runtime) are passed in as explicit behaviour parameters so that
theorems quantify over every behaviour of those collaborators.

Sources embedded here:
  src/core/framework.ts      (IntentFramework.process, detectIntent,
                              createFallbackResponse,
                              createMiddlewareStoppedResponse)
  src/core/detection.ts      (detectIntentByPattern, detectIntentByLLM)
  src/core/execution.ts      (prepareFunctionTools, executeFunctionCalls)
  src/plugins/plugin-manager.ts (PluginManager.getSortedPlugins, executeHook)
  src/extensions/storage-manager.ts (StorageManager wrappers)
  src/types/core.ts, src/types/plugins.ts (data model)
-/

namespace Intex

/-- Roles of chat transcript entries (src/types/core.ts). -/
inductive Role where
  | system
  | user
  | assistant
  | tool
deriving DecidableEq, Repr

/-- A tool call requested by the completion provider: a call id, a function
name and a JSON-encoded argument string (`toolCall.function.name`,
`toolCall.function.arguments` in the source). -/
structure ToolCall where
  id : String
  functionName : String
  argumentsText : String
deriving DecidableEq, Repr

/-- One transcript message (`ChatCompletionMessageParam`). An assistant
message may carry tool calls; a tool message carries a tool call id. -/
structure ChatMsg where
  role : Role
  content : Option String := none
  toolCallId : Option String := none
  toolCalls : List ToolCall := []
deriving DecidableEq, Repr

/-- Embedding of `BaseIntent` of src/types/core.ts: identity, display data, match
patterns and prompting examples. -/
structure BaseIntent where
  id : String
  name : String
  description : String
  patterns : List String
  examples : List String
deriving DecidableEq, Repr

/-- Embedding of `IntentDetectionResult` of src/types/core.ts. Confidence is a rational
in place of the JavaScript float; the arithmetic used by the code (division
of small naturals, doubling, `Math.min`, comparisons) is exact in ℚ. -/
structure IntentDetectionResult where
  intent : BaseIntent
  confidence : ℚ
  matchedPattern : String
deriving DecidableEq, Repr

/-- Embedding of the `FunctionCall` record of src/types/core.ts. `parameters` is the parsed
argument value, of an opaque payload type `Val`. Elapsed wall-clock time is
not modelled; `executionTime` is recorded as 0. -/
structure FunctionCall (Val : Type) where
  functionId : String
  parameters : Val
  result : Option Val := none
  error : Option String := none
  executionTime : Nat := 0
deriving DecidableEq, Repr

/-- Embedding of `IntentFunction` of src/types/core.ts. The handler may throw: it returns
`Except String Val`, the error carrying the stringified message. `parameters`
is the JSON-schema value, opaque to the core, kept as its source text. -/
structure IntentFunction (Val Ctx : Type) where
  id : String
  name : String
  description : String := ""
  parameters : String := ""
  requiresContext : Bool := false
  handler : Val → Option Ctx → Except String Val

/-- Result returned by one middleware (src/types/core.ts). The source field
`continue` is a reserved word in Lean and is embedded as
`continueProcessing`. A `some` value of `modifiedContext` models a truthy
`modifiedContext` in the source. -/
structure MiddlewareResult (Ctx : Type) where
  continueProcessing : Bool
  modifiedContext : Option Ctx := none

/-- One middleware: `execute` may throw, so it returns `Except`. -/
structure IntentMiddleware (Ctx : Type) where
  name : String := ""
  execute : BaseIntent → String → Option Ctx → Except String (MiddlewareResult Ctx)

/-- An intent contract (src/types/core.ts). The context provider is an
external async factory; its behaviour for the current turn is embedded as
the `Except` outcome it would produce (error = the provider threw). -/
structure IntentContract (Val Ctx : Type) where
  intent : BaseIntent
  functions : List (IntentFunction Val Ctx) := []
  contextProvider : Option (Except String Ctx) := none
  middleware : List (IntentMiddleware Ctx) := []

/-- Intent detection configuration. The strategy is kept as a string so the
default branch of the source switch (unrecognized strategy behaves as
`pattern`) is representable. A missing `confidenceThreshold` is `none`. -/
structure IntentDetectionConfig where
  strategy : String
  confidenceThreshold : Option ℚ := none

/-- Framework configuration restricted to the fields the embedded logic
reads. The completion-provider credentials and generation parameters are
forwarded verbatim by the source and carry no decision logic. -/
structure IntentFrameworkConfig where
  intentDetection : IntentDetectionConfig

/-- JavaScript `x || d` for a possibly-undefined number `x`: `undefined` and
`0` are falsy and select the default. -/
def jsOr (x : Option ℚ) (d : ℚ) : ℚ :=
  match x with
  | some t => if t = 0 then d else t
  | none => d

/-- JavaScript `s || d` for a possibly-undefined string: `undefined` and the
empty string are falsy and select the default. -/
def jsOrString (s : Option String) (d : String) : String :=
  match s with
  | some t => if t = "" then d else t
  | none => d

/-!
Pattern-based detection (src/core/detection.ts, detectIntentByPattern).
The JavaScript regular-expression engine is an external collaborator: the
expression `new RegExp(pattern, "i").test(userMessage)` is embedded as a
behaviour parameter `rtest : String → String → Bool` (pattern, message).
Scores use exact rational arithmetic.
-/

/-- The update performed for one pattern of one intent inside the nested
loops of `detectIntentByPattern`: on a regex match, compute
`score = pattern.length / userMessage.length` and replace the tracked best
on a strictly greater score (first seen wins ties). -/
def patternStep (rtest : String → String → Bool) (userMessage : String)
    (intent : BaseIntent) (acc : Option IntentDetectionResult × ℚ)
    (pattern : String) : Option IntentDetectionResult × ℚ :=
  if rtest pattern userMessage then
    let score : ℚ := (pattern.length : ℚ) / (userMessage.length : ℚ)
    if score > acc.2 then
      (some { intent := intent
              confidence := min (score * 2) 1
              matchedPattern := pattern }, score)
    else acc
  else acc

/-- Embedding of `detectIntentByPattern`: scan every pattern of every intent, track the
single best raw score, and return the best match only if its confidence
clears the threshold (default 0.3 via a TypeScript default parameter, which
applies exactly when the argument is `undefined`, i.e. `none`). -/
def detectIntentByPattern (rtest : String → String → Bool)
    (userMessage : String) (intents : List BaseIntent)
    (confidenceThreshold : Option ℚ) : Option IntentDetectionResult :=
  let threshold := confidenceThreshold.getD (3/10)
  let best := (intents.foldl
    (fun acc intent => intent.patterns.foldl (patternStep rtest userMessage intent) acc)
    (none, 0)).1
  match best with
  | some bm => if bm.confidence ≥ threshold then some bm else none
  | none => none

/-- Shape of the classification JSON the completion-based detector reads
back: the fields `intentId` and `confidence` of the parsed response, each
possibly missing or null. -/
structure LLMParsed where
  intentId : Option String := none
  confidence : Option ℚ := none
deriving DecidableEq, Repr

/-- Embedding of `detectIntentByLLM` (src/core/detection.ts). The completion call is the
behaviour parameter `providerOutcome` (error = the call threw; ok carries
`message.content`, possibly null). `parseJson` embeds `JSON.parse` plus the
field reads, `none` meaning the parse threw. Every failure path of the
source is inside its try/catch and yields `none`; the embedding is total,
so the component cannot throw by construction. -/
def detectIntentByLLM (providerOutcome : Except Unit (Option String))
    (parseJson : String → Option LLMParsed)
    (intents : List BaseIntent) (config : IntentFrameworkConfig) :
    Option IntentDetectionResult :=
  match providerOutcome with
  | .error _ => none
  | .ok content =>
    match parseJson (content.getD "\x7b\x7d") with
    | none => none
    | some result =>
      let idTruthy : Bool := match result.intentId with
        | some s => decide (s ≠ "")
        | none => false
      let confOk : Bool := match result.confidence with
        | some c => decide (c ≥ jsOr config.intentDetection.confidenceThreshold (1/2))
        | none => false
      if idTruthy && confOk then
        match intents.find? (fun intent => intent.id = result.intentId.getD "") with
        | some matchedIntent =>
            some { intent := matchedIntent
                   confidence := result.confidence.getD 0
                   matchedPattern := "LLM-based detection" }
        | none => none
      else none

/-!
Plugin hook bus (src/plugins/plugin-manager.ts). The registry is the value
list of the `Map` keyed by plugin id, in registration order, so ids are
assumed distinct. A hook implementation and the optional `onError` handler
may throw; the bus catches both, so their behaviours are embedded as
`Except` outcomes that the bus inspects and discards.
-/

/-- A plugin (src/types/plugins.ts). `hooks` lists the hook names the plugin
defines (the source checks `typeof plugin[hookName] === "function"`).
`hookRun` is the behaviour of invoking a hook on this plugin and
`onErrorRun` the behaviour of its `onError` handler. -/
structure Plugin where
  id : String
  priority : Option Int := none
  dependencies : Option (List String) := none
  hooks : List String := []
  hookRun : String → Except String Unit := fun _ => Except.ok ()
  hasOnError : Bool := false
  onErrorRun : Except String Unit := Except.ok ()

/-- State of the depth-first topological walk in `getSortedPlugins`:
the output list, the `visited` set and the `temp` (on-stack) set. -/
structure TopoState where
  sorted : List Plugin := []
  visited : List String := []
  temp : List String := []

/-- The recursive `visit` of `getSortedPlugins`. The walk of the source
terminates because every recursive call first adds a fresh id to `temp`;
the embedding makes this explicit with a fuel argument that
`getSortedPlugins` instantiates with a bound large enough that the
out-of-fuel case is unreachable. -/
def visitPlugin (registry : List Plugin) :
    Nat → String → TopoState → Except String TopoState
  | 0, _, _ => Except.error "topological walk out of fuel"
  | Nat.succ fuel, pid, st =>
    if pid ∈ st.temp then
      Except.error ("Circular dependency detected in plugins: " ++ pid)
    else if pid ∈ st.visited then
      Except.ok st
    else
      let deps := match registry.find? (fun p => p.id = pid) with
        | some p => p.dependencies.getD []
        | none => []
      let st1 : TopoState := { st with temp := pid :: st.temp }
      match deps.foldlM (fun s d => visitPlugin registry fuel d s) st1 with
      | Except.error e => Except.error e
      | Except.ok st2 =>
        let st3 : TopoState :=
          { st2 with temp := st2.temp.erase pid, visited := pid :: st2.visited }
        match registry.find? (fun p => p.id = pid) with
        | some p => Except.ok { st3 with sorted := st3.sorted ++ [p] }
        | none => Except.ok st3

/-- JavaScript `plugin.priority || 0`. -/
def pluginPriority (p : Plugin) : Int :=
  match p.priority with
  | some n => n
  | none => 0

/-- Stable insertion of a plugin into a list already sorted by descending
priority: the element is placed before the first entry whose priority is
not strictly greater. -/
def insertByPriority (p : Plugin) : List Plugin → List Plugin
  | [] => [p]
  | q :: rest =>
    if pluginPriority q > pluginPriority p then q :: insertByPriority p rest
    else p :: q :: rest

/-- Stable sort by descending priority, the embedding of
`sorted.sort((a, b) => (b.priority || 0) - (a.priority || 0))`:
`Array.prototype.sort` is required to be stable, and a stable descending
sort is exactly insertion before the first non-greater entry. -/
def sortByPriority : List Plugin → List Plugin
  | [] => []
  | p :: rest => insertByPriority p (sortByPriority rest)

/-- Total number of ids mentioned by a registry (registered ids plus every
declared dependency id); an upper bound for the depth of the walk. -/
def registryIdCount (registry : List Plugin) : Nat :=
  registry.length +
    registry.foldl (fun n p => n + (p.dependencies.getD []).length) 0

/-- Embedding of `getSortedPlugins`: depth-first topological sort over the dependency
graph (a cycle is a thrown configuration error), then a stable sort of the
whole result by descending priority. -/
def getSortedPlugins (registry : List Plugin) : Except String (List Plugin) :=
  match registry.foldlM
      (fun st p =>
        if p.id ∈ st.visited then Except.ok st
        else visitPlugin registry (registryIdCount registry + 1) p.id st)
      ({} : TopoState) with
  | Except.error e => Except.error e
  | Except.ok st => Except.ok (sortByPriority st.sorted)

/-- One hook invocation on one plugin inside `executeHook`: a throwing hook
is caught and logged; for any hook other than `onError` the plugin own
`onError` handler is then tried, a second failure being caught and logged
as well. Nothing escapes. -/
def firePluginHook (p : Plugin) (hookName : String) : Unit :=
  match p.hookRun hookName with
  | Except.ok _ => ()
  | Except.error _ =>
    if hookName ≠ "onError" && p.hasOnError then
      match p.onErrorRun with
      | Except.ok _ => ()
      | Except.error _ => ()
    else ()

/-- Embedding of `executeHook`: sort the registry, then fire the hook on every plugin
that defines it, in sorted order, isolating per-plugin failures. Returns
the ids of the plugins whose hook was fired, in firing order. The only
exception that can escape is the circular-dependency error of the sort. -/
def executeHook (registry : List Plugin) (hookName : String) :
    Except String (List String) :=
  match getSortedPlugins registry with
  | Except.error e => Except.error e
  | Except.ok sortedPlugins =>
    Except.ok (sortedPlugins.foldl
      (fun acc p =>
        if hookName ∈ p.hooks then
          let _ := firePluginHook p hookName
          acc ++ [p.id]
        else acc)
      [])

/-- Variant of `executeHook` with the fired list discarded, as the orchestrator uses
it (`await this.pluginManager.executeHook(...)`). -/
def executeHookU (registry : List Plugin) (hookName : String) :
    Except String Unit :=
  match executeHook registry hookName with
  | Except.error e => Except.error e
  | Except.ok _ => Except.ok ()

/-!
Function tool preparer and dispatcher (src/core/execution.ts, the version
with plugin hooks used by the orchestrator in src/core/framework.ts).
-/

/-- The nested `function` object of a completion-provider tool. -/
structure ToolFunctionDef where
  name : String
  description : String
  parameters : String
deriving DecidableEq, Repr

/-- A completion-provider tool: `{type: "function", function: {...}}`. -/
structure ChatCompletionTool where
  type : String
  function : ToolFunctionDef
deriving DecidableEq, Repr

/-- Embedding of `prepareFunctionTools`: pure, order-preserving map of the registered
functions to the provider tool schema shape. -/
def prepareFunctionTools {Val Ctx : Type} (functions : List (IntentFunction Val Ctx)) :
    List ChatCompletionTool :=
  functions.map (fun func =>
    { type := "function"
      function := { name := func.name
                    description := func.description
                    parameters := func.parameters } })

/-- The error message of a `JSON.parse` failure on a tool-call argument
string. The source calls `JSON.parse` before entering its try/catch, so
this error is thrown out of the dispatcher. -/
def jsonParseError : String := "SyntaxError: Unexpected token in JSON"

/-- Loop body of `executeFunctionCalls`. For each tool call in provider
order: parse the arguments (outside the try/catch, so a parse failure
throws out of the whole dispatcher), look up the function by name (an
unknown name is logged and skipped with no record), fire the
before-execution hook, run the handler inside try/catch, fire the
after-execution hook (inside the try on success, inside the catch on
failure), and append the record. Returns the accumulated records plus
`some e` when an exception escaped the loop. -/
def executeFunctionCallsGo {Val Ctx : Type} (registry : List Plugin)
    (parseArgs : String → Option Val)
    (availableFunctions : List (IntentFunction Val Ctx))
    (injectedContext : Option Ctx) :
    List ToolCall → List (FunctionCall Val) →
    List (FunctionCall Val) × Option String
  | [], calls => (calls, none)
  | toolCall :: rest, calls =>
    match parseArgs toolCall.argumentsText with
    | none => (calls, some jsonParseError)
    | some parameters =>
      match availableFunctions.find? (fun f => f.name = toolCall.functionName) with
      | none =>
        -- logged: `Function ${functionName} not found`; call skipped
        executeFunctionCallsGo registry parseArgs availableFunctions
          injectedContext rest calls
      | some func =>
        let record : FunctionCall Val :=
          { functionId := toolCall.id, parameters := parameters }
        match executeHookU registry "onBeforeFunctionExecution" with
        | Except.error e => (calls, some e)
        | Except.ok _ =>
          let contextArg := if func.requiresContext then injectedContext else none
          match func.handler parameters contextArg with
          | Except.ok value =>
            -- success: record the result, then the after hook, still inside
            -- the try block, so a hook failure falls into the catch
            match executeHookU registry "onAfterFunctionExecution" with
            | Except.ok _ =>
              executeFunctionCallsGo registry parseArgs availableFunctions
                injectedContext rest (calls ++ [{ record with result := some value }])
            | Except.error e =>
              -- the catch records the hook error, then fires the
              -- error-case after hook, whose failure propagates
              match executeHookU registry "onAfterFunctionExecution" with
              | Except.ok _ =>
                executeFunctionCallsGo registry parseArgs availableFunctions
                  injectedContext rest
                  (calls ++ [{ record with result := some value, error := some e }])
              | Except.error e2 => (calls, some e2)
          | Except.error message =>
            -- handler threw: the catch records the stringified error and
            -- fires the error-case after hook, whose failure propagates
            match executeHookU registry "onAfterFunctionExecution" with
            | Except.ok _ =>
              executeFunctionCallsGo registry parseArgs availableFunctions
                injectedContext rest (calls ++ [{ record with error := some message }])
            | Except.error e2 => (calls, some e2)

/-- Embedding of `executeFunctionCalls`: dispatch every provider tool call in order,
appending Function Call records to the execution context list. -/
def executeFunctionCalls {Val Ctx : Type} (registry : List Plugin)
    (parseArgs : String → Option Val)
    (toolCalls : List ToolCall)
    (availableFunctions : List (IntentFunction Val Ctx))
    (injectedContext : Option Ctx)
    (initialCalls : List (FunctionCall Val)) :
    List (FunctionCall Val) × Option String :=
  executeFunctionCallsGo registry parseArgs availableFunctions injectedContext
    toolCalls initialCalls

/-!
Orchestrator (src/core/framework.ts). The `process` call is embedded as a
pure function of the framework state, the collaborator behaviours for the
turn, and the inputs. Mutation of the per-turn execution context is state
passing; the try/catch of the source is the `Except` split at the end.

An event trace is threaded through as observational instrumentation: one
event per orchestrator completion-provider request, per middleware
invocation, per storage `updateConversationHistory` call, and one terminal
event naming the return site. The detection-time completion call of the
`llm`/`hybrid` strategies is internal to `detectIntentByLLM` and is traced
by its `providerCalled` flag instead.
-/

/-- Embedding of `ExecutionContext` of src/types/core.ts, the mutable per-turn envelope. -/
structure ExecutionContext (Val Ctx : Type) where
  conversationId : String
  userId : Option String := none
  userMessage : String
  detectedIntent : Option IntentDetectionResult := none
  injectedContext : Option Ctx := none
  functionCalls : List (FunctionCall Val) := []
  messages : List ChatMsg := []
deriving DecidableEq, Repr

/-- Response metadata. `totalExecutionTime` is wall-clock time and is not
modelled. -/
structure ResponseMetadata where
  intentDetected : Bool
  functionsExecuted : Nat
  confidence : Option ℚ := none
deriving DecidableEq, Repr

/-- The uniform response envelope (`IntentFrameworkResponse`). -/
structure IntentFrameworkResponse (Val Ctx : Type) where
  response : String
  executionContext : ExecutionContext Val Ctx
  metadata : ResponseMetadata
deriving DecidableEq, Repr

/-- Terminal states of the `process` state machine. -/
inductive TermPath where
  | fallback
  | middlewareStopped
  | plainResponse
  | functionResponse
  | errorResponse
deriving DecidableEq, Repr

/-- Observable events of one `process` turn. -/
inductive Event where
  | completionCall
  | storageUpdate
  | middlewareRun
  | terminal (path : TermPath)
deriving DecidableEq, Repr

/-- Behaviours of the external collaborators for one turn. -/
structure Collaborators (Val Ctx : Type) where
  regexTest : String → String → Bool
  llmProviderOutcome : Except Unit (Option String)
  llmParse : String → Option LLMParsed
  parseArgs : String → Option Val
  stringifyResult : Option Val → Option String → String
  storageRead : Except Unit (List ChatMsg)
  completion1 : List ChatMsg → List ChatCompletionTool → Except Unit ChatMsg
  completion2 : List ChatMsg → Except Unit ChatMsg

/-- Framework state as configured at startup: the configuration, the
contract registry (unique intent ids, registration order), the plugin
registry, and whether a storage extension instance was supplied. -/
structure Framework (Val Ctx : Type) where
  config : IntentFrameworkConfig
  contracts : List (IntentContract Val Ctx)
  plugins : List Plugin
  hasStorage : Bool := false

/-- Outcome of the intent-detection strategy selector, with a flag
recording whether the completion provider was invoked for detection. -/
structure DetectOutcome where
  result : Option IntentDetectionResult
  providerCalled : Bool
deriving DecidableEq, Repr

/-- Embedding of `detectIntent` of src/core/framework.ts: the strategy switch. The
hybrid short-circuit compares the pattern confidence against
`confidenceThreshold || 0.7`. An unrecognized strategy falls back to
pattern detection. -/
def detectIntent {Val Ctx : Type} (fw : Framework Val Ctx)
    (co : Collaborators Val Ctx) (userMessage : String) : DetectOutcome :=
  let intents := fw.contracts.map (fun contract => contract.intent)
  let threshold := fw.config.intentDetection.confidenceThreshold
  match fw.config.intentDetection.strategy with
  | "pattern" =>
    { result := detectIntentByPattern co.regexTest userMessage intents threshold
      providerCalled := false }
  | "llm" =>
    { result := detectIntentByLLM co.llmProviderOutcome co.llmParse intents fw.config
      providerCalled := true }
  | "hybrid" =>
    let patternResult := detectIntentByPattern co.regexTest userMessage intents threshold
    match patternResult with
    | some pr =>
      if pr.confidence ≥ jsOr threshold (7/10) then
        { result := some pr, providerCalled := false }
      else
        { result := detectIntentByLLM co.llmProviderOutcome co.llmParse intents fw.config
          providerCalled := true }
    | none =>
      { result := detectIntentByLLM co.llmProviderOutcome co.llmParse intents fw.config
        providerCalled := true }
  | _ =>
    { result := detectIntentByPattern co.regexTest userMessage intents threshold
      providerCalled := false }

/-- Outcome of the middleware chain, carrying the injected-context value at
exit. -/
inductive MwOutcome (Ctx : Type) where
  | completed (ictx : Option Ctx)
  | stopped (ictx : Option Ctx)
  | threw (e : String) (ictx : Option Ctx)

/-- The middleware loop of `process`: strictly in array order; the first
`continue: false` stops the chain before applying any context change of
that middleware; a truthy `modifiedContext` replaces the injected context
before the next middleware runs; a throwing middleware propagates. One
`middlewareRun` event is traced per invocation. -/
def runMiddlewareChain {Ctx : Type} (intent : BaseIntent) (userMessage : String) :
    List (IntentMiddleware Ctx) → Option Ctx → MwOutcome Ctx × List Event
  | [], ictx => (MwOutcome.completed ictx, [])
  | mw :: rest, ictx =>
    match mw.execute intent userMessage ictx with
    | Except.error e => (MwOutcome.threw e ictx, [Event.middlewareRun])
    | Except.ok result =>
      if result.continueProcessing = false then
        (MwOutcome.stopped ictx, [Event.middlewareRun])
      else
        let ictx2 := match result.modifiedContext with
          | some c => some c
          | none => ictx
        let (outcome, events) := runMiddlewareChain intent userMessage rest ictx2
        (outcome, Event.middlewareRun :: events)

/-- Embedding of `createFallbackResponse`. -/
def createFallbackResponse {Val Ctx : Type} (ctx : ExecutionContext Val Ctx) :
    IntentFrameworkResponse Val Ctx :=
  { response := "I\x27m not sure how to help with that. Could you please rephrase your request?"
    executionContext := ctx
    metadata := { intentDetected := false, functionsExecuted := 0 } }

/-- Embedding of `createMiddlewareStoppedResponse`. -/
def createMiddlewareStoppedResponse {Val Ctx : Type} (ctx : ExecutionContext Val Ctx) :
    IntentFrameworkResponse Val Ctx :=
  { response := "Your request was processed but stopped by a validation rule."
    executionContext := ctx
    metadata := { intentDetected := true, functionsExecuted := 0 } }

/-- Result of the body of `process`: the outcome of the try block plus the
execution context and event trace at exit (context mutations survive a
thrown exception, as the source context is a shared heap object). -/
structure BodyResult (Val Ctx : Type) where
  outcome : Except String (IntentFrameworkResponse Val Ctx)
  ctx : ExecutionContext Val Ctx
  events : List Event

/-- The tail of the try block of `process`, from preparing the tool schema
through the completion calls, function dispatch and persistence to the
return of the plain-response or function-response envelope. Its event trace
is relative to the point where it starts. -/
def processResponsePhase {Val Ctx : Type} (fw : Framework Val Ctx)
    (co : Collaborators Val Ctx) (detectionResult : IntentDetectionResult)
    (contract : IntentContract Val Ctx) (ctx4 : ExecutionContext Val Ctx) :
    BodyResult Val Ctx :=
  let tools := prepareFunctionTools contract.functions
  match co.completion1 ctx4.messages tools with
  | Except.error _ =>
    ⟨Except.error "completion provider request failed", ctx4,
      [Event.completionCall]⟩
  | Except.ok chatResponse =>
  if chatResponse.toolCalls.isEmpty then
    -- no tool calls: plain response path
    let ctx5 := { ctx4 with messages := ctx4.messages ++ [chatResponse] }
    match executeHookU fw.plugins "onBeforeResponseGeneration" with
    | Except.error e => ⟨Except.error e, ctx5, [Event.completionCall]⟩
    | Except.ok _ =>
    let response : IntentFrameworkResponse Val Ctx :=
      { response := jsOrString chatResponse.content "No response generated."
        executionContext := ctx5
        metadata := { intentDetected := true, functionsExecuted := 0
                      confidence := some detectionResult.confidence } }
    match executeHookU fw.plugins "onAfterResponseGeneration" with
    | Except.error e =>
      ⟨Except.error e, ctx5, [Event.completionCall, Event.storageUpdate]⟩
    | Except.ok _ =>
      ⟨Except.ok response, ctx5,
        [Event.completionCall, Event.storageUpdate,
          Event.terminal TermPath.plainResponse]⟩
  else
    -- tool calls requested: dispatch, fold results, second completion
    match executeFunctionCalls fw.plugins co.parseArgs chatResponse.toolCalls
        contract.functions ctx4.injectedContext ctx4.functionCalls with
    | (calls, some e) =>
      ⟨Except.error e, { ctx4 with functionCalls := calls }, [Event.completionCall]⟩
    | (calls, none) =>
    let ctx5 := { ctx4 with functionCalls := calls }
    let ctx6 := { ctx5 with messages := ctx5.messages ++ [chatResponse] }
    let toolMessages := ctx6.functionCalls.map (fun fc =>
      ({ role := Role.tool, toolCallId := some fc.functionId
         content := some (co.stringifyResult fc.result fc.error) } : ChatMsg))
    let ctx7 := { ctx6 with messages := ctx6.messages ++ toolMessages }
    match executeHookU fw.plugins "onBeforeResponseGeneration" with
    | Except.error e => ⟨Except.error e, ctx7, [Event.completionCall]⟩
    | Except.ok _ =>
    match co.completion2 ctx7.messages with
    | Except.error _ =>
      ⟨Except.error "completion provider request failed", ctx7,
        [Event.completionCall, Event.completionCall]⟩
    | Except.ok finalMessage =>
    let ctx8 := { ctx7 with messages := ctx7.messages ++ [finalMessage] }
    let response : IntentFrameworkResponse Val Ctx :=
      { response := jsOrString finalMessage.content "Function executed successfully."
        executionContext := ctx8
        metadata := { intentDetected := true
                      functionsExecuted := ctx8.functionCalls.length
                      confidence := some detectionResult.confidence } }
    match executeHookU fw.plugins "onAfterResponseGeneration" with
    | Except.error e =>
      ⟨Except.error e, ctx8,
        [Event.completionCall, Event.completionCall, Event.storageUpdate]⟩
    | Except.ok _ =>
      ⟨Except.ok response, ctx8,
        [Event.completionCall, Event.completionCall, Event.storageUpdate,
          Event.terminal TermPath.functionResponse]⟩

/-- The try block of `process`, from pushing the user message up to one of
the return statements; every `Except.error` outcome is an exception that
the catch block of `process` will handle. -/
def processBody {Val Ctx : Type} (fw : Framework Val Ctx)
    (co : Collaborators Val Ctx) (userMessage : String)
    (ctx0 : ExecutionContext Val Ctx) : BodyResult Val Ctx :=
  let ctx1 := { ctx0 with
    messages := ctx0.messages ++ [{ role := Role.user, content := some userMessage }] }
  match executeHookU fw.plugins "onBeforeIntentDetection" with
  | Except.error e => ⟨Except.error e, ctx1, []⟩
  | Except.ok _ =>
  let detection := detectIntent fw co userMessage
  let ctx2 := { ctx1 with detectedIntent := detection.result }
  match executeHookU fw.plugins "onAfterIntentDetection" with
  | Except.error e => ⟨Except.error e, ctx2, []⟩
  | Except.ok _ =>
  match detection.result with
  | none =>
    ⟨Except.ok (createFallbackResponse ctx2), ctx2, [Event.terminal TermPath.fallback]⟩
  | some detectionResult =>
    match fw.contracts.find? (fun c => c.intent.id = detectionResult.intent.id) with
    | none =>
      ⟨Except.error ("No contract found for intent: " ++ detectionResult.intent.id),
        ctx2, []⟩
    | some contract =>
      match runMiddlewareChain detectionResult.intent userMessage
          contract.middleware ctx2.injectedContext with
      | (MwOutcome.threw e ictx, mwEvents) =>
        ⟨Except.error e, { ctx2 with injectedContext := ictx }, mwEvents⟩
      | (MwOutcome.stopped ictx, mwEvents) =>
        let ctx3 := { ctx2 with injectedContext := ictx }
        ⟨Except.ok (createMiddlewareStoppedResponse ctx3), ctx3,
          mwEvents ++ [Event.terminal TermPath.middlewareStopped]⟩
      | (MwOutcome.completed ictx, mwEvents) =>
        let ctx3 := { ctx2 with injectedContext := ictx }
        match executeHookU fw.plugins "onBeforeContextInjection" with
        | Except.error e => ⟨Except.error e, ctx3, mwEvents⟩
        | Except.ok _ =>
        let ctx4 :=
          match contract.contextProvider, ctx3.injectedContext with
          | some providerOutcome, none =>
            match providerOutcome with
            | Except.ok c => { ctx3 with injectedContext := some c }
            | Except.error _ => ctx3   -- caught and logged, turn proceeds
          | _, _ => ctx3
        match executeHookU fw.plugins "onAfterContextInjection" with
        | Except.error e => ⟨Except.error e, ctx4, mwEvents⟩
        | Except.ok _ =>
        let phase := processResponsePhase fw co detectionResult contract ctx4
        ⟨phase.outcome, phase.ctx, mwEvents ++ phase.events⟩

/-- Result of one `process` call: the value returned to the caller (an
`Except.error` is a raw exception escaping `process`), the final execution
context, and the event trace. -/
structure ProcessResult (Val Ctx : Type) where
  returned : Except String (IntentFrameworkResponse Val Ctx)
  ctx : ExecutionContext Val Ctx
  events : List Event

/-- Embedding of `IntentFramework.process`: build the execution context (the storage
manager read catches every storage failure and degrades to an empty
history), run the try block, and on an exception run the catch block: fire
the `onError` hook (whose own circular-dependency failure escapes) and
return the generic error envelope with the partial-progress metadata. -/
def process {Val Ctx : Type} (fw : Framework Val Ctx) (co : Collaborators Val Ctx)
    (userMessage conversationId : String) (userId : Option String) :
    ProcessResult Val Ctx :=
  let history : List ChatMsg :=
    if fw.hasStorage then
      match co.storageRead with
      | Except.ok l => l
      | Except.error _ => []   -- caught by the storage manager, logged
    else []
  let ctx0 : ExecutionContext Val Ctx :=
    { conversationId := conversationId, userId := userId
      userMessage := userMessage, messages := history }
  let body := processBody fw co userMessage ctx0
  match body.outcome with
  | Except.ok response => ⟨Except.ok response, body.ctx, body.events⟩
  | Except.error _ =>
    match executeHookU fw.plugins "onError" with
    | Except.error e2 => ⟨Except.error e2, body.ctx, body.events⟩
    | Except.ok _ =>
      ⟨Except.ok
        { response := "I encountered an error while processing your request. Please try again."
          executionContext := body.ctx
          metadata := { intentDetected := body.ctx.detectedIntent.isSome
                        functionsExecuted := body.ctx.functionCalls.length
                        confidence := body.ctx.detectedIntent.map
                          (fun d => d.confidence) } },
        body.ctx, body.events ++ [Event.terminal TermPath.errorResponse]⟩

/-!
Concrete instances used by witnesses, counterexamples and failing-input
evaluations. The opaque payload and context types are instantiated with
`String`. `demoMatch` instantiates the regular-expression collaborator:
for a pattern free of metacharacters, `new RegExp(pattern, "i")` tests
case-insensitive substring containment.
-/

/-- Substring containment over character lists. -/
def containsSeg (needle : List Char) : List Char → Bool
  | [] => needle.isEmpty
  | c :: rest => needle.isPrefixOf (c :: rest) || containsSeg needle rest

/-- Case-insensitive substring containment, the behaviour of
`new RegExp(pattern, "i").test(message)` on metacharacter-free patterns. -/
def demoMatch (pattern message : String) : Bool :=
  containsSeg (pattern.data.map Char.toLower) (message.data.map Char.toLower)

/-- Argument parser behaviour: the literal text "bad json" fails to parse,
everything else parses to itself. -/
def demoParseArgs : String → Option String :=
  fun s => if s = "bad json" then none else some s

/-- A handler that succeeds, tagging its input. -/
def lookupFunction : IntentFunction String String :=
  { id := "lookup", name := "lookup"
    handler := fun v _ => Except.ok ("ok:" ++ v) }

/-- A handler that always throws. -/
def boomFunction : IntentFunction String String :=
  { id := "boom", name := "boom"
    handler := fun _ _ => Except.error "kaboom" }

/-- A tool call whose JSON argument string does not parse. -/
def badCall : ToolCall :=
  { id := "call-1", functionName := "lookup", argumentsText := "bad json" }

/-- A well-formed tool call for the throwing handler. -/
def callBoom : ToolCall :=
  { id := "c1", functionName := "boom", argumentsText := "x" }

/-- A well-formed tool call for the succeeding handler. -/
def callLookup : ToolCall :=
  { id := "c2", functionName := "lookup", argumentsText := "y" }

/-- Invariant of the best-match accumulator of `detectIntentByPattern`:
either nothing has matched yet, or the tracked best comes from some pattern
of some intent of the collection that tested true, with the confidence
formula of the source. -/
def PatternBestInv (rtest : String → String → Bool) (userMessage : String)
    (intents : List BaseIntent)
    (acc : Option IntentDetectionResult × ℚ) : Prop :=
  acc.1 = none ∨
    ∃ i, i ∈ intents ∧ ∃ p, p ∈ i.patterns ∧ rtest p userMessage = true ∧
      acc.1 = some { intent := i
                     confidence := min (((p.length : ℚ) / (userMessage.length : ℚ)) * 2) 1
                     matchedPattern := p }

/-- An intent whose single pattern is the literal `a`, used with the
message `abcde`: pattern length 1, message length 5, raw score 1/5,
confidence 2/5. -/
def shortPatternIntent : BaseIntent :=
  { id := "short", name := "Short", description := "single letter pattern"
    patterns := ["a"], examples := [] }

/-- Collaborators whose completion provider always fails, with the
substring regex behaviour; used where only detection is exercised. -/
def detectCollab : Collaborators String String :=
  { regexTest := demoMatch
    llmProviderOutcome := Except.error ()
    llmParse := fun _ => none
    parseArgs := fun _ => none
    stringifyResult := fun _ _ => ""
    storageRead := Except.ok []
    completion1 := fun _ _ => Except.error ()
    completion2 := fun _ => Except.error () }

/-- A framework configured with the hybrid strategy and a configured
detection threshold of exactly 0, registering `shortPatternIntent`. -/
def hybridZeroFw : Framework String String :=
  { config := { intentDetection := { strategy := "hybrid", confidenceThreshold := some 0 } }
    contracts := [{ intent := shortPatternIntent }]
    plugins := [] }

/-- Configuration with the llm strategy and no configured threshold. -/
def llmDefaultCfg : IntentFrameworkConfig :=
  { intentDetection := { strategy := "llm" } }

/-- Plugin `B`: no dependencies, priority 0. -/
def pluginDepB : Plugin :=
  { id := "B", priority := some 0, hooks := ["onBeforeIntentDetection"] }

/-- Plugin `A`: depends on `B`, priority 10. -/
def pluginDepA : Plugin :=
  { id := "A", priority := some 10, dependencies := some ["B"]
    hooks := ["onBeforeIntentDetection"] }

/-- First half of a circular plugin dependency. -/
def pluginCycOne : Plugin := { id := "P1", dependencies := some ["P2"] }

/-- Second half of a circular plugin dependency. -/
def pluginCycTwo : Plugin := { id := "P2", dependencies := some ["P1"] }

/-- A framework whose plugin registry has a dependency cycle. -/
def cyclicFw : Framework String String :=
  { config := { intentDetection := { strategy := "pattern" } }
    contracts := []
    plugins := [pluginCycOne, pluginCycTwo] }

/-- A middleware that always halts the chain. -/
def stopMiddleware : IntentMiddleware String :=
  { name := "gate"
    execute := fun _ _ _ => Except.ok { continueProcessing := false } }

/-- A framework with one contract whose middleware list is the halting
middleware alone. -/
def gatedFw : Framework String String :=
  { config := { intentDetection := { strategy := "pattern" } }
    contracts := [{ intent := shortPatternIntent, middleware := [stopMiddleware] }]
    plugins := [] }

/-- Collaborators whose first completion call returns a plain text message
with no tool calls. -/
def respCollab : Collaborators String String :=
  { detectCollab with
      completion1 := fun _ _ =>
        Except.ok { role := Role.assistant, content := some "hi" } }

/-- A framework with one pattern-matched contract and no middleware. -/
def plainFw : Framework String String :=
  { config := { intentDetection := { strategy := "pattern" } }
    contracts := [{ intent := shortPatternIntent }]
    plugins := [] }

/-- A framework with no contracts and no plugins. -/
def emptyFw : Framework String String :=
  { config := { intentDetection := { strategy := "pattern" } }
    contracts := []
    plugins := [] }

/-- Parse behaviour returning a known intent id with confidence 2/5,
below the default completion-detection threshold of 0.5. -/
def lowConfParse : String → Option LLMParsed :=
  fun _ => some { intentId := some "short", confidence := some (2/5) }

end Intex

namespace Intex

/-! ### Supporting lemmas -/

/-- The orchestrator-facing hook call: its value is determined by the
topological sort alone, since every per-plugin failure is caught inside the
bus. -/
theorem executeHookU_eq (registry : List Plugin) (hookName : String) :
    executeHookU registry hookName =
      match getSortedPlugins registry with
      | Except.ok _ => Except.ok ()
      | Except.error e => Except.error e := by
  cases h : getSortedPlugins registry <;>
    simp [executeHookU, executeHook, h]

/-- With an acyclic (successfully sorted) registry, every hook call
succeeds. -/
theorem executeHookU_ok {registry : List Plugin} {s : List Plugin}
    (h : getSortedPlugins registry = Except.ok s) (hookName : String) :
    executeHookU registry hookName = Except.ok () := by
  rw [executeHookU_eq, h]

/-- With a registry whose sort fails, every hook call throws that error. -/
theorem executeHookU_error {registry : List Plugin} {e : String}
    (h : getSortedPlugins registry = Except.error e) (hookName : String) :
    executeHookU registry hookName = Except.error e := by
  rw [executeHookU_eq, h]

/-- Every record in the dispatcher output is either one of the records it
started from or has exactly one of `result` / `error` set. -/
theorem dispatchGo_record_mem {Val Ctx : Type} (registry : List Plugin)
    (parseArgs : String → Option Val)
    (funcs : List (IntentFunction Val Ctx)) (ictx : Option Ctx) :
    ∀ (toolCalls : List ToolCall) (calls : List (FunctionCall Val))
      (r : FunctionCall Val),
      r ∈ (executeFunctionCallsGo registry parseArgs funcs ictx toolCalls calls).1 →
      r ∈ calls ∨ (r.result.isSome = true ∧ r.error = none) ∨
        (r.result = none ∧ r.error.isSome = true) := by
  intro toolCalls
  induction toolCalls with
  | nil =>
    intro calls r hr
    exact Or.inl hr
  | cons tc rest ih =>
    intro calls r hr
    rw [executeFunctionCallsGo] at hr
    cases hp : parseArgs tc.argumentsText with
    | none =>
      simp only [hp] at hr
      exact Or.inl hr
    | some p =>
      simp only [hp] at hr
      cases hf : funcs.find? (fun f => f.name = tc.functionName) with
      | none =>
        simp only [hf] at hr
        exact ih calls r hr
      | some func =>
        simp only [hf] at hr
        cases hb : executeHookU registry "onBeforeFunctionExecution" with
        | error e =>
          simp only [hb] at hr
          exact Or.inl hr
        | ok u =>
          simp only [hb] at hr
          cases hh : func.handler p (if func.requiresContext then ictx else none) with
          | ok v =>
            simp only [hh] at hr
            cases ha : executeHookU registry "onAfterFunctionExecution" with
            | ok u2 =>
              simp only [ha] at hr
              rcases ih _ r hr with hmem | hgood
              · rcases List.mem_append.mp hmem with hold | hnew
                · exact Or.inl hold
                · rcases List.mem_singleton.mp hnew with rfl
                  exact Or.inr (Or.inl ⟨rfl, rfl⟩)
              · exact Or.inr hgood
            | error e =>
              simp only [ha] at hr
              exact Or.inl hr
          | error msg =>
            simp only [hh] at hr
            cases ha : executeHookU registry "onAfterFunctionExecution" with
            | ok u2 =>
              simp only [ha] at hr
              rcases ih _ r hr with hmem | hgood
              · rcases List.mem_append.mp hmem with hold | hnew
                · exact Or.inl hold
                · rcases List.mem_singleton.mp hnew with rfl
                  exact Or.inr (Or.inr ⟨rfl, rfl⟩)
              · exact Or.inr hgood
            | error e2 =>
              simp only [ha] at hr
              exact Or.inl hr


/-! ### Claim C4 -/

/-- C4: every Function Call record appended by the dispatcher has, after
handling of that call completes, exactly one of `result` and `error` set:
never both and never neither. (Records already present before the dispatch
are untouched; a call dispatched with an empty initial list yields only
exactly-one records.) -/
theorem c4_exactly_one_of_result_error {Val Ctx : Type} (registry : List Plugin)
    (parseArgs : String → Option Val) (toolCalls : List ToolCall)
    (funcs : List (IntentFunction Val Ctx)) (ictx : Option Ctx)
    (initialCalls : List (FunctionCall Val)) (r : FunctionCall Val)
    (hr : r ∈ (executeFunctionCalls registry parseArgs toolCalls funcs ictx
      initialCalls).1) :
    r ∈ initialCalls ∨ (r.result.isSome = true ∧ r.error = none) ∨
      (r.result = none ∧ r.error.isSome = true) :=
  dispatchGo_record_mem registry parseArgs funcs ictx toolCalls initialCalls r hr

/-- Witness for C4 at a concrete dispatch of one succeeding call. -/
theorem c4_witness :
    ({ functionId := "c2", parameters := "y", result := some "ok:y" } : FunctionCall String)
        ∈ (executeFunctionCalls [] demoParseArgs [callLookup] [lookupFunction]
            (none : Option String) []).1 ∧
      (({ functionId := "c2", parameters := "y", result := some "ok:y" } : FunctionCall String)
          ∈ ([] : List (FunctionCall String)) ∨
        ((some "ok:y" : Option String).isSome = true ∧
          ({ functionId := "c2", parameters := "y", result := some "ok:y" } :
            FunctionCall String).error = none) ∨
        (({ functionId := "c2", parameters := "y", result := some "ok:y" } :
            FunctionCall String).result = none ∧
          ((none : Option String)).isSome = true)) :=
  ⟨by decide,
    c4_exactly_one_of_result_error [] demoParseArgs [callLookup] [lookupFunction]
      none [] _ (by decide)⟩

/-! ### Claim C8 -/

/-- C8: within one batch whose arguments parse and whose names resolve,
a first handler that throws does not prevent the second call: the second
handler runs and its result is recorded; the first record carries only the
error, the second only the result. The registry hypothesis states that the
plugin bus is operational (its dependency graph sorts without the fatal
circular-dependency configuration error). -/
theorem c8_handler_failure_is_isolated {Val Ctx : Type} (registry s : List Plugin)
    (parseArgs : String → Option Val) (funcs : List (IntentFunction Val Ctx))
    (ictx : Option Ctx) (tc1 tc2 : ToolCall)
    (f1 f2 : IntentFunction Val Ctx) (p1 p2 : Val) (e : String) (v : Val)
    (hs : getSortedPlugins registry = Except.ok s)
    (h1 : parseArgs tc1.argumentsText = some p1)
    (h2 : parseArgs tc2.argumentsText = some p2)
    (hf1 : funcs.find? (fun f => f.name = tc1.functionName) = some f1)
    (hf2 : funcs.find? (fun f => f.name = tc2.functionName) = some f2)
    (hh1 : f1.handler p1 (if f1.requiresContext then ictx else none) = Except.error e)
    (hh2 : f2.handler p2 (if f2.requiresContext then ictx else none) = Except.ok v) :
    executeFunctionCalls registry parseArgs [tc1, tc2] funcs ictx [] =
      ([{ functionId := tc1.id, parameters := p1, error := some e },
        { functionId := tc2.id, parameters := p2, result := some v }], none) := by
  simp only [executeFunctionCalls, executeFunctionCallsGo, h1, h2, hf1, hf2,
    executeHookU_ok hs, hh1, hh2, List.nil_append, List.singleton_append]

/-- Witness for C8: a throwing handler followed by a succeeding one. -/
theorem c8_witness :
    executeFunctionCalls [] demoParseArgs [callBoom, callLookup]
        [boomFunction, lookupFunction] (none : Option String) [] =
      ([{ functionId := "c1", parameters := "x", error := some "kaboom" },
        { functionId := "c2", parameters := "y", result := some "ok:y" }], none) :=
  c8_handler_failure_is_isolated [] [] demoParseArgs [boomFunction, lookupFunction]
    none callBoom callLookup boomFunction lookupFunction "x" "y" "kaboom" "ok:y"
    rfl rfl rfl rfl rfl rfl rfl

/-! ### Claim C2 -/

/-- C2: contrary to the claim, a tool call whose JSON argument string fails
to parse is not a per-call error: `JSON.parse` runs before the try/catch of
the dispatcher, so the exception aborts the whole batch. Here the batch
holds a malformed first call and a perfectly dispatchable second call; the
dispatcher throws, appends no record at all, and never dispatches the
second call, and via the orchestrator this exception reaches the top-level
catch, aborting the pipeline for the turn. -/
theorem c2_parse_failure_aborts_batch :
    demoParseArgs callLookup.argumentsText = some "y" ∧
      executeFunctionCalls [] demoParseArgs [badCall, callLookup]
          [boomFunction, lookupFunction] (none : Option String) [] =
        ([], some jsonParseError) :=
  ⟨rfl, rfl⟩


/-! ### Pattern matcher lemmas -/

/-- The inner pattern loop preserves the best-match invariant. -/
theorem patternInner_inv (rtest : String → String → Bool) (userMessage : String)
    (intents : List BaseIntent) (i : BaseIntent) (hi : i ∈ intents) :
    ∀ (ps : List String) (acc : Option IntentDetectionResult × ℚ),
      (∀ p ∈ ps, p ∈ i.patterns) →
      PatternBestInv rtest userMessage intents acc →
      PatternBestInv rtest userMessage intents
        (ps.foldl (patternStep rtest userMessage i) acc) := by
  intro ps
  induction ps with
  | nil => intro acc _ hacc; exact hacc
  | cons p rest ih =>
    intro acc hps hacc
    rw [List.foldl_cons]
    refine ih _ (fun q hq => hps q (List.mem_cons_of_mem _ hq)) ?_
    rw [patternStep]
    cases hr : rtest p userMessage with
    | false => simpa using hacc
    | true =>
      simp only [if_true]
      by_cases hgt : ((p.length : ℚ) / (userMessage.length : ℚ)) > acc.2
      · rw [if_pos hgt]
        exact Or.inr ⟨i, hi, p, hps p (List.mem_cons_self _ _), hr, rfl⟩
      · rw [if_neg hgt]
        exact hacc

/-- The outer intent loop preserves the best-match invariant. -/
theorem patternFold_inv (rtest : String → String → Bool) (userMessage : String)
    (intents : List BaseIntent) :
    ∀ (l : List BaseIntent) (acc : Option IntentDetectionResult × ℚ),
      (∀ i ∈ l, i ∈ intents) →
      PatternBestInv rtest userMessage intents acc →
      PatternBestInv rtest userMessage intents
        (l.foldl (fun a i => i.patterns.foldl (patternStep rtest userMessage i) a) acc) := by
  intro l
  induction l with
  | nil => intro acc _ hacc; exact hacc
  | cons i rest ih =>
    intro acc hl hacc
    rw [List.foldl_cons]
    refine ih _ (fun j hj => hl j (List.mem_cons_of_mem _ hj)) ?_
    exact patternInner_inv rtest userMessage intents i (hl i (List.mem_cons_self _ _))
      i.patterns acc (fun _ hp => hp) hacc

/-- A pattern that does not test true leaves the accumulator unchanged. -/
theorem patternInner_nomatch (rtest : String → String → Bool) (userMessage : String)
    (i : BaseIntent) :
    ∀ (ps : List String) (acc : Option IntentDetectionResult × ℚ),
      (∀ p ∈ ps, rtest p userMessage = false) →
      ps.foldl (patternStep rtest userMessage i) acc = acc := by
  intro ps
  induction ps with
  | nil => intro acc _; rfl
  | cons p rest ih =>
    intro acc hps
    rw [List.foldl_cons, patternStep, hps p (List.mem_cons_self _ _)]
    simpa using ih acc (fun q hq => hps q (List.mem_cons_of_mem _ hq))

/-- When no pattern of any intent tests true, the whole scan leaves the
accumulator unchanged. -/
theorem patternFold_nomatch (rtest : String → String → Bool) (userMessage : String) :
    ∀ (l : List BaseIntent) (acc : Option IntentDetectionResult × ℚ),
      (∀ i ∈ l, ∀ p ∈ i.patterns, rtest p userMessage = false) →
      l.foldl (fun a i => i.patterns.foldl (patternStep rtest userMessage i) a) acc = acc := by
  intro l
  induction l with
  | nil => intro acc _; rfl
  | cons i rest ih =>
    intro acc hl
    rw [List.foldl_cons,
      patternInner_nomatch rtest userMessage i i.patterns acc (hl i (List.mem_cons_self _ _))]
    exact ih acc (fun j hj => hl j (List.mem_cons_of_mem _ hj))

/-! ### Claim C5 -/

/-- C5: for a nonempty message (the modelled domain of the exact rational
score arithmetic), the pattern matcher returns a match only when some
pattern of some intent tests true (case-insensitively, via the regex
collaborator) with confidence `min((pattern.length / message.length) * 2, 1)`
at or above the caller threshold (default 0.3 when the argument is
undefined); and when no pattern matches it returns none regardless of the
threshold. -/
theorem c5_pattern_matcher_sound (rtest : String → String → Bool)
    (userMessage : String) (intents : List BaseIntent)
    (confidenceThreshold : Option ℚ) (_hlen : 0 < userMessage.length) :
    (∀ r, detectIntentByPattern rtest userMessage intents confidenceThreshold = some r →
      ∃ i, i ∈ intents ∧ ∃ p, p ∈ i.patterns ∧ rtest p userMessage = true ∧
        r.intent = i ∧ r.matchedPattern = p ∧
        r.confidence = min (((p.length : ℚ) / (userMessage.length : ℚ)) * 2) 1 ∧
        confidenceThreshold.getD (3/10) ≤ r.confidence) ∧
    ((∀ i ∈ intents, ∀ p ∈ i.patterns, rtest p userMessage = false) →
      detectIntentByPattern rtest userMessage intents confidenceThreshold = none) := by
  constructor
  · intro r hres
    simp only [detectIntentByPattern] at hres
    have hinv := patternFold_inv rtest userMessage intents intents (none, 0)
      (fun _ h => h) (Or.inl rfl)
    rcases hinv with hnone | ⟨i, hi, p, hp, hr, heq⟩
    · simp only [hnone] at hres
      exact Option.noConfusion hres
    · simp only [heq] at hres
      by_cases hth : confidenceThreshold.getD (3/10) ≤
          min (((p.length : ℚ) / (userMessage.length : ℚ)) * 2) 1
      · rw [if_pos hth] at hres
        have hbr := Option.some.inj hres
        subst hbr
        exact ⟨i, hi, p, hp, hr, rfl, rfl, rfl, hth⟩
      · rw [if_neg hth] at hres
        exact Option.noConfusion hres
  · intro hnone
    simp only [detectIntentByPattern,
      patternFold_nomatch rtest userMessage intents (none, 0) hnone]

/-- Witness for C5 at a concrete match: intent `short` with pattern `a`,
message `abcde`, undefined threshold. -/
theorem c5_witness :
    0 < "abcde".length ∧
      (∃ i, i ∈ [shortPatternIntent] ∧ ∃ p, p ∈ i.patterns ∧
        demoMatch p "abcde" = true ∧
        (⟨shortPatternIntent, 2/5, "a"⟩ : IntentDetectionResult).intent = i ∧
        (⟨shortPatternIntent, 2/5, "a"⟩ : IntentDetectionResult).matchedPattern = p ∧
        (⟨shortPatternIntent, 2/5, "a"⟩ : IntentDetectionResult).confidence
          = min (((p.length : ℚ) / (("abcde".length : Nat) : ℚ)) * 2) 1 ∧
        (none : Option ℚ).getD (3/10)
          ≤ (⟨shortPatternIntent, 2/5, "a"⟩ : IntentDetectionResult).confidence) :=
  ⟨by decide,
    (c5_pattern_matcher_sound demoMatch "abcde" [shortPatternIntent] none
      (by decide)).1 ⟨shortPatternIntent, 2/5, "a"⟩ (by
        have h1 : "a".length = 1 := by decide
        have h5 : "abcde".length = 5 := by decide
        simp only [detectIntentByPattern, shortPatternIntent, List.foldl_cons,
          List.foldl_nil, patternStep,
          show demoMatch "a" "abcde" = true from by decide, h1, h5, if_true]
        norm_num [min_def])⟩

/-! ### Claim C9 -/

/-- C9: the completion-based detector cannot throw (it is a total function
of the collaborator behaviours by construction), and it returns none on
every failure: a throwing provider call, a JSON parse failure, a missing
intent id, an id unknown to the intent collection, or a confidence below
the configured threshold (default 0.5). -/
theorem c9_llm_detector_defensive (parseJson : String → Option LLMParsed)
    (intents : List BaseIntent) (config : IntentFrameworkConfig) :
    (detectIntentByLLM (Except.error ()) parseJson intents config = none) ∧
    (∀ content, parseJson (content.getD "\x7b\x7d") = none →
      detectIntentByLLM (Except.ok content) parseJson intents config = none) ∧
    (∀ content r, parseJson (content.getD "\x7b\x7d") = some r →
      r.intentId = none →
      detectIntentByLLM (Except.ok content) parseJson intents config = none) ∧
    (∀ content r, parseJson (content.getD "\x7b\x7d") = some r →
      intents.find? (fun i => i.id = r.intentId.getD "") = none →
      detectIntentByLLM (Except.ok content) parseJson intents config = none) ∧
    (∀ content r c, parseJson (content.getD "\x7b\x7d") = some r →
      r.confidence = some c →
      c < (config.intentDetection.confidenceThreshold.getD (1/2)) →
      detectIntentByLLM (Except.ok content) parseJson intents config = none) := by
  refine ⟨rfl, ?_, ?_, ?_, ?_⟩
  · intro content hparse
    simp only [detectIntentByLLM, hparse]
  · intro content r hparse hid
    simp [detectIntentByLLM, hparse, hid]
  · intro content r hparse hfind
    simp only [detectIntentByLLM, hparse]
    split
    · rw [hfind]
    · rfl
  · intro content r c hparse hconf hlt
    have hfalse : decide (c ≥ jsOr config.intentDetection.confidenceThreshold (1/2))
        = false := by
      refine decide_eq_false ?_
      intro hge
      rcases hth : config.intentDetection.confidenceThreshold with _ | t
      · rw [hth] at hlt hge
        simp only [Option.getD_none] at hlt
        simp only [jsOr] at hge
        linarith
      · rw [hth] at hlt hge
        simp only [Option.getD_some] at hlt
        simp only [jsOr] at hge
        by_cases ht0 : t = 0
        · rw [if_pos ht0] at hge
          rw [ht0] at hlt
          have hneg : c < (1/2 : ℚ) := lt_trans hlt (by norm_num)
          linarith
        · rw [if_neg ht0] at hge
          linarith
    simp only [detectIntentByLLM, hparse, hconf, hfalse, Bool.and_false]
    simp

/-- Witness for C9: a parsed response naming a registered intent with
confidence 2/5, below the default threshold 0.5, yields none. -/
theorem c9_witness :
    detectIntentByLLM (Except.ok (some "resp")) lowConfParse
        [shortPatternIntent] llmDefaultCfg = none :=
  (c9_llm_detector_defensive lowConfParse [shortPatternIntent] llmDefaultCfg).2.2.2.2
    (some "resp") { intentId := some "short", confidence := some (2/5) } (2/5)
    rfl rfl (by norm_num [llmDefaultCfg])


/-! ### Claim C6 -/

/-- C6 (amended): under the hybrid strategy, whenever pattern detection
yields a result whose confidence meets-or-exceeds the effective hybrid
threshold — the configured detection threshold when it is nonzero,
otherwise 0.7, since the source computes `confidenceThreshold || 0.7` —
that result is returned and the completion provider is never invoked for
detection; otherwise detection falls through to the completion-based
detector. -/
theorem c6_hybrid_short_circuit {Val Ctx : Type} (fw : Framework Val Ctx)
    (co : Collaborators Val Ctx) (userMessage : String)
    (hstrat : fw.config.intentDetection.strategy = "hybrid") :
    (∀ r, detectIntentByPattern co.regexTest userMessage
        (fw.contracts.map (fun c => c.intent))
        fw.config.intentDetection.confidenceThreshold = some r →
      ((jsOr fw.config.intentDetection.confidenceThreshold (7/10) ≤ r.confidence →
        detectIntent fw co userMessage = { result := some r, providerCalled := false }) ∧
       (r.confidence < jsOr fw.config.intentDetection.confidenceThreshold (7/10) →
        detectIntent fw co userMessage =
          { result := detectIntentByLLM co.llmProviderOutcome co.llmParse
              (fw.contracts.map (fun c => c.intent)) fw.config
            providerCalled := true }))) ∧
    (detectIntentByPattern co.regexTest userMessage
        (fw.contracts.map (fun c => c.intent))
        fw.config.intentDetection.confidenceThreshold = none →
      detectIntent fw co userMessage =
        { result := detectIntentByLLM co.llmProviderOutcome co.llmParse
            (fw.contracts.map (fun c => c.intent)) fw.config
          providerCalled := true }) := by
  constructor
  · intro r hres
    constructor
    · intro hge
      simp only [detectIntent, hstrat, hres]
      rw [if_pos hge]
    · intro hlt
      simp only [detectIntent, hstrat, hres]
      rw [if_neg (not_le.mpr hlt)]
  · intro hres
    simp only [detectIntent, hstrat, hres]

/-- Witness for C6 at a concrete short-circuit: one intent whose pattern is
the whole message, undefined threshold, pattern confidence 1 at or above
the effective hybrid threshold 0.7; the provider is not called. -/
theorem c6_witness :
    detectIntent
        ({ config := { intentDetection := { strategy := "hybrid" } }
           contracts := [{ intent := shortPatternIntent }]
           plugins := [] } : Framework String String)
        detectCollab "a" =
      { result := some { intent := shortPatternIntent, confidence := 1
                         matchedPattern := "a" }
        providerCalled := false } := by
  have hpat : detectIntentByPattern detectCollab.regexTest "a"
      [shortPatternIntent] none =
      some { intent := shortPatternIntent, confidence := 1, matchedPattern := "a" } := by
    have h1 : "a".length = 1 := by decide
    simp only [detectIntentByPattern, shortPatternIntent, List.foldl_cons,
      List.foldl_nil, patternStep, detectCollab,
      show demoMatch "a" "a" = true from by decide, h1, if_true]
    norm_num [min_def]
  exact ((c6_hybrid_short_circuit
      ({ config := { intentDetection := { strategy := "hybrid" } }
         contracts := [{ intent := shortPatternIntent }]
         plugins := [] } : Framework String String) detectCollab "a" rfl).1
    { intent := shortPatternIntent, confidence := 1, matchedPattern := "a" }
    hpat).1 (by norm_num [jsOr])

/-- C6 counterexample: with the hybrid strategy and a configured detection
threshold of exactly 0, pattern detection yields a result (confidence 2/5,
at or above the configured threshold 0), yet the completion provider is
still invoked for detection, because the source replaces the falsy
configured threshold 0 by the default 0.7. -/
theorem c6_counterexample :
    detectIntentByPattern detectCollab.regexTest "abcde" [shortPatternIntent]
        (some 0) =
      some { intent := shortPatternIntent, confidence := 2/5, matchedPattern := "a" } ∧
    (0 : ℚ) ≤ (2/5 : ℚ) ∧
    (detectIntent hybridZeroFw detectCollab "abcde").providerCalled = true := by
  refine ⟨?_, by norm_num, ?_⟩
  · have h1 : "a".length = 1 := by decide
    have h5 : "abcde".length = 5 := by decide
    simp only [detectIntentByPattern, shortPatternIntent, List.foldl_cons,
      List.foldl_nil, patternStep, detectCollab,
      show demoMatch "a" "abcde" = true from by decide, h1, h5, if_true]
    norm_num [min_def]
  · have h1 : "a".length = 1 := by decide
    have h5 : "abcde".length = 5 := by decide
    have hpat : detectIntentByPattern detectCollab.regexTest "abcde"
        [shortPatternIntent] (some 0) =
        some { intent := shortPatternIntent, confidence := 2/5, matchedPattern := "a" } := by
      simp only [detectIntentByPattern, shortPatternIntent, List.foldl_cons,
        List.foldl_nil, patternStep, detectCollab,
        show demoMatch "a" "abcde" = true from by decide, h1, h5, if_true]
      norm_num [min_def]
    simp only [detectIntent, hybridZeroFw, List.map_cons, List.map_nil, hpat]
    rw [if_neg (by norm_num [jsOr])]


/-! ### Claim C1 -/

/-- C1: the claim fails on the code. The registry holds `B` (priority 0,
no dependencies, registered first) and `A` (priority 10, depending on `B`).
The dependency graph is acyclic, yet `executeHook` fires the dependent `A`
before its dependency `B` for the hook, because `getSortedPlugins` re-sorts
the entire topologically ordered list by descending priority. This
contradicts the claim and the source comment on the `dependencies` field
(`IDs of plugins that must execute before this one`). -/
theorem c1_dependent_fires_before_dependency :
    pluginDepA.dependencies = some [pluginDepB.id] ∧
      pluginPriority pluginDepA > pluginPriority pluginDepB ∧
      executeHook [pluginDepB, pluginDepA] "onBeforeIntentDetection" =
        Except.ok ["A", "B"] :=
  ⟨rfl, by decide, rfl⟩

/-! ### Claim C3 -/

/-- C3 counterexample: with a circular plugin dependency registered, the
first hook of the turn throws inside the try block, and the `onError` hook
fired by the catch block throws the same configuration error again, so
`process` propagates a raw exception to the caller instead of returning the
response envelope. -/
theorem c3_counterexample :
    (process cyclicFw detectCollab "hi" "c1" none).returned =
      Except.error "Circular dependency detected in plugins: P1" := rfl

/-- C3 (amended): provided the plugin dependency graph is acyclic (a cycle
is the fatal configuration error of the bus), `process` never propagates a
raw exception: for every input and every behaviour of the completion
provider, storage, handlers, plugins and middleware it returns the standard
response envelope. -/
theorem c3_returns_envelope {Val Ctx : Type} (fw : Framework Val Ctx)
    (co : Collaborators Val Ctx) (userMessage conversationId : String)
    (userId : Option String) (s : List Plugin)
    (hs : getSortedPlugins fw.plugins = Except.ok s) :
    ∃ resp, (process fw co userMessage conversationId userId).returned =
      Except.ok resp := by
  simp only [process]
  split
  · exact ⟨_, rfl⟩
  · rw [executeHookU_ok hs]
    exact ⟨_, rfl⟩

/-- Witness for C3 on an acyclic (empty) registry: the fallback turn
returns an envelope. -/
theorem c3_witness :
    ∃ resp, (process emptyFw detectCollab "hi" "c1" none).returned =
      Except.ok resp :=
  c3_returns_envelope emptyFw detectCollab "hi" "c1" none [] rfl


/-! ### Middleware chain lemmas -/

/-- Every event traced by the middleware chain is a middleware invocation. -/
theorem runMiddlewareChain_events {Ctx : Type} (intent : BaseIntent)
    (userMessage : String) :
    ∀ (mws : List (IntentMiddleware Ctx)) (ictx : Option Ctx) (e : Event),
      e ∈ (runMiddlewareChain intent userMessage mws ictx).2 →
      e = Event.middlewareRun := by
  intro mws
  induction mws with
  | nil => intro ictx e he; exact absurd he (List.not_mem_nil _)
  | cons mw rest ih =>
    intro ictx e he
    rw [runMiddlewareChain] at he
    cases hmw : mw.execute intent userMessage ictx with
    | error err =>
      simp only [hmw] at he
      simpa using he
    | ok result =>
      simp only [hmw] at he
      by_cases hc : result.continueProcessing = false
      · rw [if_pos hc] at he
        simpa using he
      · rw [if_neg hc] at he
        rcases List.mem_cons.mp he with h1 | htail
        · exact h1
        · exact ih _ e htail

/-- A chain of pass-through middleware followed by one that halts stops
after exactly `pre.length + 1` invocations. -/
theorem runMiddlewareChain_stop {Ctx : Type} (intent : BaseIntent)
    (userMessage : String) (stopMw : IntentMiddleware Ctx)
    (post : List (IntentMiddleware Ctx))
    (hstop : ∀ c, ∃ r, stopMw.execute intent userMessage c = Except.ok r ∧
      r.continueProcessing = false) :
    ∀ (pre : List (IntentMiddleware Ctx)) (ictx : Option Ctx),
      (∀ mw ∈ pre, ∀ c, ∃ r, mw.execute intent userMessage c = Except.ok r ∧
        r.continueProcessing = true) →
      ∃ ictx2, runMiddlewareChain intent userMessage (pre ++ stopMw :: post) ictx =
        (MwOutcome.stopped ictx2,
          List.replicate (pre.length + 1) Event.middlewareRun) := by
  intro pre
  induction pre with
  | nil =>
    intro ictx _
    obtain ⟨r, hr, hc⟩ := hstop ictx
    refine ⟨ictx, ?_⟩
    simp only [List.nil_append, runMiddlewareChain, hr, hc]
    simp
  | cons mw rest ih =>
    intro ictx hpre
    obtain ⟨r, hr, hc⟩ := hpre mw (List.mem_cons_self _ _) ictx
    obtain ⟨ictx3, hrec⟩ := ih
      (match r.modifiedContext with | some c => some c | none => ictx)
      (fun m hm => hpre m (List.mem_cons_of_mem _ hm))
    refine ⟨ictx3, ?_⟩
    simp only [List.cons_append, runMiddlewareChain, hr, hc]
    simp only [Bool.true_eq_false, if_false, List.append_eq, hrec,
      List.length_cons, List.replicate_succ]

/-! ### Claim C7 -/

/-- C7: with an operational (acyclic) plugin bus, when detection selects a
contract whose middleware list is `pre` pass-through middleware followed by
one that halts, `process` invokes exactly `pre.length + 1` middleware (the
later ones never run), never reaches the completion provider, performs no
storage update, and returns the fixed middleware-stopped envelope with
`functionsExecuted` 0 and `intentDetected` true. -/
theorem c7_middleware_halt_short_circuits {Val Ctx : Type}
    (fw : Framework Val Ctx) (co : Collaborators Val Ctx)
    (userMessage conversationId : String) (userId : Option String)
    (s : List Plugin) (det : IntentDetectionResult)
    (contract : IntentContract Val Ctx)
    (pre post : List (IntentMiddleware Ctx)) (stopMw : IntentMiddleware Ctx)
    (hs : getSortedPlugins fw.plugins = Except.ok s)
    (hdet : (detectIntent fw co userMessage).result = some det)
    (hcontract : fw.contracts.find? (fun c => c.intent.id = det.intent.id) =
      some contract)
    (hmw : contract.middleware = pre ++ stopMw :: post)
    (hpre : ∀ mw ∈ pre, ∀ c, ∃ r, mw.execute det.intent userMessage c =
      Except.ok r ∧ r.continueProcessing = true)
    (hstop : ∀ c, ∃ r, stopMw.execute det.intent userMessage c = Except.ok r ∧
      r.continueProcessing = false) :
    ∃ resp, (process fw co userMessage conversationId userId).returned =
        Except.ok resp ∧
      resp.response = "Your request was processed but stopped by a validation rule." ∧
      resp.metadata.intentDetected = true ∧
      resp.metadata.functionsExecuted = 0 ∧
      (process fw co userMessage conversationId userId).events =
        List.replicate (pre.length + 1) Event.middlewareRun ++
          [Event.terminal TermPath.middlewareStopped] ∧
      (process fw co userMessage conversationId userId).events.count
          Event.middlewareRun = pre.length + 1 ∧
      Event.completionCall ∉ (process fw co userMessage conversationId userId).events ∧
      Event.storageUpdate ∉ (process fw co userMessage conversationId userId).events := by
  obtain ⟨ictx2, hchain⟩ := runMiddlewareChain_stop det.intent userMessage stopMw post
    hstop pre none hpre
  simp only [process, processBody, executeHookU_ok hs, hdet, hcontract, hmw, hchain]
  refine ⟨_, rfl, rfl, rfl, rfl, ?_, ?_, ?_, ?_⟩ <;>
    simp [List.count_append, List.count_replicate, List.count_singleton,
      List.mem_append, List.mem_replicate]


/-- Witness for C7: one contract whose only middleware halts; the turn
stops with the fixed text after exactly one middleware invocation. -/
theorem c7_witness :
    ∃ resp, (process gatedFw detectCollab "a" "c1" none).returned =
        Except.ok resp ∧
      resp.response = "Your request was processed but stopped by a validation rule." ∧
      resp.metadata.intentDetected = true ∧
      resp.metadata.functionsExecuted = 0 ∧
      (process gatedFw detectCollab "a" "c1" none).events =
        List.replicate (([] : List (IntentMiddleware String)).length + 1)
            Event.middlewareRun ++
          [Event.terminal TermPath.middlewareStopped] ∧
      (process gatedFw detectCollab "a" "c1" none).events.count
          Event.middlewareRun =
        ([] : List (IntentMiddleware String)).length + 1 ∧
      Event.completionCall ∉ (process gatedFw detectCollab "a" "c1" none).events ∧
      Event.storageUpdate ∉ (process gatedFw detectCollab "a" "c1" none).events := by
  have hdet : (detectIntent gatedFw detectCollab "a").result =
      some { intent := shortPatternIntent, confidence := 1, matchedPattern := "a" } := by
    have h1 : "a".length = 1 := by decide
    simp only [detectIntent, gatedFw, List.map_cons, List.map_nil,
      detectIntentByPattern, shortPatternIntent, List.foldl_cons, List.foldl_nil,
      patternStep, detectCollab, show demoMatch "a" "a" = true from by decide,
      h1, if_true]
    norm_num [min_def]
  exact c7_middleware_halt_short_circuits gatedFw detectCollab "a" "c1" none []
    { intent := shortPatternIntent, confidence := 1, matchedPattern := "a" }
    { intent := shortPatternIntent, middleware := [stopMiddleware] }
    [] [] stopMiddleware rfl hdet rfl rfl
    (fun mw hm => absurd hm (List.not_mem_nil _))
    (fun c => ⟨{ continueProcessing := false }, rfl, rfl⟩)


/-! ### Persistence path lemmas -/

/-- With an operational bus, the response phase traces a storage update
only together with a plain-response or function-response terminal event,
and never traces a fallback or middleware-stopped terminal. -/
theorem processResponsePhase_events {Val Ctx : Type} (fw : Framework Val Ctx)
    (co : Collaborators Val Ctx) (detectionResult : IntentDetectionResult)
    (contract : IntentContract Val Ctx) (ctx4 : ExecutionContext Val Ctx)
    (s : List Plugin) (hs : getSortedPlugins fw.plugins = Except.ok s) :
    (Event.storageUpdate ∈
        (processResponsePhase fw co detectionResult contract ctx4).events →
      Event.terminal TermPath.plainResponse ∈
          (processResponsePhase fw co detectionResult contract ctx4).events ∨
        Event.terminal TermPath.functionResponse ∈
          (processResponsePhase fw co detectionResult contract ctx4).events) ∧
    Event.terminal TermPath.fallback ∉
      (processResponsePhase fw co detectionResult contract ctx4).events ∧
    Event.terminal TermPath.middlewareStopped ∉
      (processResponsePhase fw co detectionResult contract ctx4).events := by
  simp only [processResponsePhase, executeHookU_ok hs]
  rcases hc1 : co.completion1 ctx4.messages (prepareFunctionTools contract.functions)
    with u | chatResponse
  · simp only [hc1]
    exact ⟨by simp, by simp, by simp⟩
  · simp only [hc1]
    by_cases he : chatResponse.toolCalls.isEmpty
    · rw [if_pos he]
      exact ⟨fun _ => Or.inl (by simp), by simp, by simp⟩
    · rw [if_neg he]
      rcases hd : executeFunctionCalls fw.plugins co.parseArgs chatResponse.toolCalls
          contract.functions ctx4.injectedContext ctx4.functionCalls
        with ⟨calls, _ | err⟩
      · simp only [hd]
        rcases hc2 : co.completion2
            ({ ctx4 with
                functionCalls := calls
                messages := (ctx4.messages ++ [chatResponse]) ++
                  calls.map (fun fc =>
                    ({ role := Role.tool, toolCallId := some fc.functionId
                       content := some (co.stringifyResult fc.result fc.error) } :
                      ChatMsg)) } : ExecutionContext Val Ctx).messages
          with u | finalMessage
        · simp only [hc2]
          exact ⟨by simp, by simp, by simp⟩
        · simp only [hc2]
          exact ⟨fun _ => Or.inr (by simp), by simp, by simp⟩
      · simp only [hd]
        exact ⟨by simp, by simp, by simp⟩

/-- Assembling the trace of a full turn from middleware events, the
response-phase events and a possible trailing error terminal. -/
theorem eventsAssemble (evs mwEvents evsP tail : List Event)
    (hevs : evs = mwEvents ++ evsP ++ tail)
    (hmw : ∀ x ∈ mwEvents, x = Event.middlewareRun)
    (h1 : Event.storageUpdate ∈ evsP →
      Event.terminal TermPath.plainResponse ∈ evsP ∨
        Event.terminal TermPath.functionResponse ∈ evsP)
    (h2 : Event.terminal TermPath.fallback ∉ evsP)
    (h3 : Event.terminal TermPath.middlewareStopped ∉ evsP)
    (htail : ∀ x ∈ tail, x = Event.terminal TermPath.errorResponse) :
    Event.storageUpdate ∉ evs ∨
      ((Event.terminal TermPath.plainResponse ∈ evs ∨
          Event.terminal TermPath.functionResponse ∈ evs) ∧
        Event.terminal TermPath.fallback ∉ evs ∧
        Event.terminal TermPath.middlewareStopped ∉ evs) := by
  subst hevs
  by_cases hupd : Event.storageUpdate ∈ evsP
  · right
    refine ⟨?_, ?_, ?_⟩
    · rcases h1 hupd with h | h
      · exact Or.inl (List.mem_append.mpr (Or.inl (List.mem_append.mpr (Or.inr h))))
      · exact Or.inr (List.mem_append.mpr (Or.inl (List.mem_append.mpr (Or.inr h))))
    · intro hin
      rcases List.mem_append.mp hin with hin2 | hin2
      · rcases List.mem_append.mp hin2 with hin3 | hin3
        · exact absurd (hmw _ hin3) (by decide)
        · exact h2 hin3
      · exact absurd (htail _ hin2) (by decide)
    · intro hin
      rcases List.mem_append.mp hin with hin2 | hin2
      · rcases List.mem_append.mp hin2 with hin3 | hin3
        · exact absurd (hmw _ hin3) (by decide)
        · exact h3 hin3
      · exact absurd (htail _ hin2) (by decide)
  · left
    intro hin
    rcases List.mem_append.mp hin with hin2 | hin2
    · rcases List.mem_append.mp hin2 with hin3 | hin3
      · exact absurd (hmw _ hin3) (by decide)
      · exact hupd hin3
    · exact absurd (htail _ hin2) (by decide)

/-- A trace made of middleware events plus a tail without storage updates
has no storage update. -/
theorem noUpdateAssemble (evs mwEvents tail : List Event)
    (hevs : evs = mwEvents ++ tail)
    (hmw : ∀ x ∈ mwEvents, x = Event.middlewareRun)
    (htail : Event.storageUpdate ∉ tail) :
    Event.storageUpdate ∉ evs := by
  subst hevs
  intro hin
  rcases List.mem_append.mp hin with hin2 | hin2
  · exact absurd (hmw _ hin2) (by decide)
  · exact htail hin2


/-! ### Claim C10 -/

/-- C10: a turn that ends on the fallback path or the middleware-stopped
path never calls `updateConversationHistory` (no storage-update event), and
a storage update can occur only on the plain-response or function-response
terminal paths. -/
theorem c10_no_persistence_on_fallback_or_stop {Val Ctx : Type}
    (fw : Framework Val Ctx) (co : Collaborators Val Ctx)
    (userMessage conversationId : String) (userId : Option String) :
    ((Event.terminal TermPath.fallback ∈
          (process fw co userMessage conversationId userId).events ∨
        Event.terminal TermPath.middlewareStopped ∈
          (process fw co userMessage conversationId userId).events) →
      Event.storageUpdate ∉ (process fw co userMessage conversationId userId).events) ∧
    (Event.storageUpdate ∈ (process fw co userMessage conversationId userId).events →
      Event.terminal TermPath.plainResponse ∈
          (process fw co userMessage conversationId userId).events ∨
        Event.terminal TermPath.functionResponse ∈
          (process fw co userMessage conversationId userId).events) := by
  suffices h : Event.storageUpdate ∉
        (process fw co userMessage conversationId userId).events ∨
      ((Event.terminal TermPath.plainResponse ∈
            (process fw co userMessage conversationId userId).events ∨
          Event.terminal TermPath.functionResponse ∈
            (process fw co userMessage conversationId userId).events) ∧
        Event.terminal TermPath.fallback ∉
          (process fw co userMessage conversationId userId).events ∧
        Event.terminal TermPath.middlewareStopped ∉
          (process fw co userMessage conversationId userId).events) by
    rcases h with hno | ⟨hpf, hfb, hms⟩
    · exact ⟨fun _ => hno, fun hupd => absurd hupd hno⟩
    · refine ⟨fun hin => ?_, fun _ => hpf⟩
      rcases hin with h1 | h1
      · exact absurd h1 hfb
      · exact absurd h1 hms
  rcases hs : getSortedPlugins fw.plugins with e | s
  · left
    simp only [process, processBody, executeHookU_error hs]
    simp
  · simp only [process, processBody, executeHookU_ok hs]
    rcases hdet : (detectIntent fw co userMessage).result with _ | det
    · left
      simp only [hdet]
      simp
    · simp only [hdet]
      rcases hfind : fw.contracts.find? (fun c => c.intent.id = det.intent.id)
        with _ | contract
      · left
        simp only [hfind]
        simp
      · simp only [hfind]
        rcases hmwv : runMiddlewareChain det.intent userMessage contract.middleware none
          with ⟨ictx3 | ictx3 | ⟨err, ictx3⟩, mwEvents⟩
        · -- middleware completed: response phase runs
          have hmwe : ∀ x ∈ mwEvents, x = Event.middlewareRun := fun x hx =>
            runMiddlewareChain_events det.intent userMessage contract.middleware none x
              (by rw [hmwv]; exact hx)
          simp only [hmwv]
          split
          · -- phase returned the envelope
            exact eventsAssemble _ _ _ [] (List.append_nil _).symm hmwe
              (processResponsePhase_events fw co det contract _ s hs).1
              (processResponsePhase_events fw co det contract _ s hs).2.1
              (processResponsePhase_events fw co det contract _ s hs).2.2
              (fun x hx => absurd hx (List.not_mem_nil _))
          · -- phase threw: the catch appends the error terminal
            exact eventsAssemble _ _ _ [Event.terminal TermPath.errorResponse] rfl hmwe
              (processResponsePhase_events fw co det contract _ s hs).1
              (processResponsePhase_events fw co det contract _ s hs).2.1
              (processResponsePhase_events fw co det contract _ s hs).2.2
              (fun x hx => List.mem_singleton.mp hx)
        · -- middleware stopped
          have hmwe : ∀ x ∈ mwEvents, x = Event.middlewareRun := fun x hx =>
            runMiddlewareChain_events det.intent userMessage contract.middleware none x
              (by rw [hmwv]; exact hx)
          left
          simp only [hmwv]
          exact noUpdateAssemble _ _ _ rfl hmwe (by simp)
        · -- a middleware threw
          have hmwe : ∀ x ∈ mwEvents, x = Event.middlewareRun := fun x hx =>
            runMiddlewareChain_events det.intent userMessage contract.middleware none x
              (by rw [hmwv]; exact hx)
          left
          simp only [hmwv]
          exact noUpdateAssemble _ _ _ rfl hmwe (by simp)


/-- Witness for C10 at a concrete persisting turn: the plain-response path
traces the storage update together with its terminal event. -/
theorem c10_witness :
    Event.storageUpdate ∈ (process plainFw respCollab "a" "c1" none).events ∧
      (Event.terminal TermPath.plainResponse ∈
          (process plainFw respCollab "a" "c1" none).events ∨
        Event.terminal TermPath.functionResponse ∈
          (process plainFw respCollab "a" "c1" none).events) := by
  have hdet : (detectIntent plainFw respCollab "a").result =
      some { intent := shortPatternIntent, confidence := 1, matchedPattern := "a" } := by
    have h1 : "a".length = 1 := by decide
    simp only [detectIntent, plainFw, List.map_cons, List.map_nil,
      detectIntentByPattern, shortPatternIntent, List.foldl_cons, List.foldl_nil,
      patternStep, respCollab, detectCollab,
      show demoMatch "a" "a" = true from by decide, h1, if_true]
    norm_num [min_def]
  have hev : (process plainFw respCollab "a" "c1" none).events =
      [Event.completionCall, Event.storageUpdate,
        Event.terminal TermPath.plainResponse] := by
    simp only [process, processBody,
      @executeHookU_ok [] [] rfl, hdet]
    simp [plainFw, respCollab, detectCollab, shortPatternIntent,
      runMiddlewareChain, processResponsePhase,
      @executeHookU_ok [] [] rfl]
  refine ⟨by rw [hev]; decide, ?_⟩
  exact (c10_no_persistence_on_fallback_or_stop plainFw respCollab "a" "c1" none).2
    (by rw [hev]; decide)

end Intex
